import Mathlib

/-!
Shallow embedding (in Lean 4) of the scheduling core of the `weekly-timetable`
single-page application, `app.js`. Tasks, the task store, validation, the
day-of-week utilities, the auto-balance and reschedule algorithms and the
status update operation are translated from the JavaScript source; theorems
below settle the specification claims against this embedding.

Modelling conventions:
* JavaScript strings are modelled as Lean `String` (sequences of code points;
  the application's day tokens, statuses and messages are all ASCII/BMP text,
  where code-point length agrees with JS `length`).
* `parseInt` results are modelled as `Option Int` (`none` = `NaN`).
* The DOM-based `Utils.escapeHtml` (textContent/innerHTML round-trip) is the
  standard HTML text-node serialization: it rewrites the characters
  `&`, `<`, `>` and U+00A0 to their entities and leaves all others alone.
* `Array.prototype.sort` is stable (ES2019); `sortByDurationDesc` below is the
  stable descending insertion sort, hence extensionally equal to the JS sort
  with comparator `(a, b) => b.duration - a.duration`.
* `IDGenerator.generate` returns `task_<Date.now()>_<counter++>`; an id is
  modelled as the pair `(now, counter)`, which determines the generated string
  (the numeric components contain no underscore, so the string determines the
  pair and vice versa). `Date.now()` is threaded into the operations as an
  explicit `now : Nat` argument; the strictly increasing counter lives in the
  store model as `nextId`.
* The in-place mutation `task.day = ...` inside `autoBalance` acts on a task
  object of the store array; object identity is modelled by the task's
  position in the store list (`withIdx` pairs each task with its index, and
  the relocation is `List.set` at that index).
* Each mutating operation returns the post-call store together with an
  `Option String` error (a thrown `Error`'s message); the JS functions throw
  before any store mutation on every error path, which the error branches of
  the Lean definitions reproduce.
-/

/-- Model of `String.prototype.toLowerCase` restricted to its ASCII action
(the only case arising for the application's day tokens). -/
def lowerChar (c : Char) : Char :=
  if 65 ≤ c.toNat ∧ c.toNat ≤ 90 then Char.ofNat (c.toNat + 32) else c

/-- Model of `s.toLowerCase()`. -/
def jsToLower (s : String) : String := ⟨s.data.map lowerChar⟩

/-- The WhiteSpace/LineTerminator set recognised by `String.prototype.trim`. -/
def isJsWhitespace (c : Char) : Bool :=
  c = ' ' || c = '\t' || c = '\n' || c = '\r' ||
  c = '\u000B' || c = '\u000C' || c = ' ' || c = '﻿' ||
  c = ' ' || (0x2000 ≤ c.toNat && c.toNat ≤ 0x200A) ||
  c = ' ' || c = ' ' || c = ' ' || c = ' ' || c = '　'

/-- Trim on the underlying character list: drop the whitespace prefix and the
whitespace suffix (`List.rdropWhile p m = (m.reverse.dropWhile p).reverse`). -/
def jsTrimList (l : List Char) : List Char :=
  (l.dropWhile isJsWhitespace).rdropWhile isJsWhitespace

/-- Model of `s.trim()`. -/
def jsTrim (s : String) : String := ⟨jsTrimList s.data⟩

/-- HTML text-node escaping of one character (see the module comment on
`Utils.escapeHtml`). -/
def escapeChar (c : Char) : List Char :=
  if c = '&' then ['&', 'a', 'm', 'p', ';']
  else if c = '<' then ['&', 'l', 't', ';']
  else if c = '>' then ['&', 'g', 't', ';']
  else if c = ' ' then ['&', 'n', 'b', 's', 'p', ';']
  else [c]

/-- Characters that `escapeChar` rewrites. -/
def isEscapable (c : Char) : Bool :=
  c = '&' || c = '<' || c = '>' || c = ' '

/-- Model of the regex test `/<[^>]*>/.test(s)`: the regex matches exactly
when some occurrence of a lone character is followed, further right, by
some occurrence of the closing character (the first such closer after the
opener has no closer strictly between them, giving a literal match). -/
def hasHtmlTag : List Char → Bool
  | [] => false
  | c :: rest => if c = '<' then rest.contains '>' else hasHtmlTag rest

/-- Model of `Array.prototype.indexOf` over a string list: position of the
first occurrence, as an `Option`. -/
def idxOf? (a : String) : List String → Option Nat
  | [] => none
  | x :: xs => if x = a then some 0 else (idxOf? a xs).map (· + 1)

/-- Model of `Array.prototype.indexOf` proper: `-1` when absent. -/
def jsIndexOf (a : String) (l : List String) : Int :=
  match idxOf? a l with
  | some i => (i : Int)
  | none => -1

namespace CONFIG

/-- `CONFIG.DAYS` from `app.js`. -/
def DAYS : List String :=
  ["monday", "tuesday", "wednesday", "thursday", "friday", "saturday", "sunday"]

/-- `CONFIG.STATUS.COMPLETED`. -/
def STATUS_COMPLETED : String := "completed"

/-- `CONFIG.STATUS.NOT_COMPLETED`. -/
def STATUS_NOT_COMPLETED : String := "not-completed"

/-- `CONFIG.STATUS.APPROACHING`. -/
def STATUS_APPROACHING : String := "approaching"

/-- `CONFIG.STATUS.MISSED`. -/
def STATUS_MISSED : String := "missed"

/-- `CONFIG.DEFAULT_DAILY_LIMIT`. -/
def DEFAULT_DAILY_LIMIT : Int := 150

/-- `CONFIG.MAX_TASK_DURATION`. -/
def MAX_TASK_DURATION : Int := 1440

/-- `CONFIG.MAX_TITLE_LENGTH`. -/
def MAX_TITLE_LENGTH : Nat := 100

/-- `CONFIG.MAX_BALANCE_ATTEMPTS`. -/
def MAX_BALANCE_ATTEMPTS : Nat := 7

/-- `CONFIG.RESCHEDULE_DAYS_AHEAD`. -/
def RESCHEDULE_DAYS_AHEAD : Nat := 3

end CONFIG

namespace Utils

/-- `Utils.escapeHtml(text)`: the `div.textContent = text; div.innerHTML`
round trip, i.e. HTML text-node escaping of every character. -/
def escapeHtml (s : String) : String := ⟨s.data.flatMap escapeChar⟩

/-- `Utils.getDayIndex(dayName)`: `CONFIG.DAYS.indexOf(dayName.toLowerCase())`,
`-1` when the token is unrecognised. -/
def getDayIndex (dayName : String) : Int :=
  jsIndexOf (jsToLower dayName) CONFIG.DAYS

/-- `Utils.getNextDay(currentDay)`: `CONFIG.DAYS[(idx + 1) % 7]`. The JS `%`
agrees with `Int.emod` here because `idx + 1 ≥ 0` (indexOf returns at
least `-1`). -/
def getNextDay (currentDay : String) : String :=
  CONFIG.DAYS.getD ((getDayIndex currentDay + 1) % 7).toNat ""

/-- `Utils.getDayAhead(currentDay, daysAhead)`: `CONFIG.DAYS[(idx + n) % 7]`.
The application only calls this with `n = 3`, so the dividend is nonnegative
and the JS `%` agrees with `Int.emod`. -/
def getDayAhead (currentDay : String) (daysAhead : Nat) : String :=
  CONFIG.DAYS.getD ((getDayIndex currentDay + daysAhead) % 7).toNat ""

end Utils

namespace Validator

/-- `Validator.validateTaskTitle(title)`: empty check on the trimmed title,
raw-length check against `MAX_TITLE_LENGTH`, tag-pattern check, then
returns the escaped trimmed title. -/
def validateTaskTitle (title : String) : Except String String :=
  if (jsTrim title).length = 0 then .error ("Task title is required")
  else if title.length > CONFIG.MAX_TITLE_LENGTH then
    .error ("Title too long (max 100 characters)")
  else if hasHtmlTag title.data then .error ("HTML tags are not allowed")
  else .ok (Utils.escapeHtml (jsTrim title))

/-- `Validator.validateDuration(duration)`: the argument is the result of
`parseInt(duration)` (`none` = `NaN`). -/
def validateDuration (raw : Option Int) : Except String Int :=
  match raw with
  | none => .error ("Duration must be a number")
  | some num =>
    if num ≤ 0 then .error ("Duration must be positive")
    else if num > CONFIG.MAX_TASK_DURATION then
      .error ("Duration cannot exceed 1440 minutes (24 hours)")
    else .ok num

end Validator

namespace App

/-- A task object as built by `TaskManager.addTask` / `rescheduleTask`:
`id` is the `(Date.now(), counter)` pair behind the generated id string,
`addedDate` the creation timestamp. -/
structure Task where
  id : Nat × Nat
  title : String
  duration : Int
  day : String
  status : String
  addedDate : Nat
deriving DecidableEq

/-- `AppStorage.studyData` together with the `IDGenerator` counter:
the task array, the daily limit and the next counter value. -/
structure Store where
  tasks : List Task
  dailyLimit : Int
  nextId : Nat
deriving DecidableEq

/-- The store at session start: no tasks, `DEFAULT_DAILY_LIMIT`, counter 1. -/
def initialStore : Store := ⟨[], CONFIG.DEFAULT_DAILY_LIMIT, 1⟩

namespace TaskManager

/-- Pair every task with its position in the store array; positions model
JS object identity for the in-place `task.day` mutation. -/
def withIdx : Nat → List Task → List (Nat × Task)
  | _, [] => []
  | n, t :: ts => (n, t) :: withIdx (n + 1) ts

/-- `TaskManager.calculateDayTime(dayName)`. -/
def calculateDayTime (tasks : List Task) (dayName : String) : Int :=
  ((tasks.filter fun t =>
      t.day == jsToLower dayName && t.status != CONFIG.STATUS_MISSED).map
    (fun t => t.duration)).sum

/-- `TaskManager.getTasksByDay(dayName)`. -/
def getTasksByDay (tasks : List Task) (dayName : String) : List Task :=
  tasks.filter fun t => t.day == jsToLower dayName

/-- The filter inside `autoBalance`: non-missed tasks of the current day
(`currentDay` is already lowercase there), with their store positions. -/
def dayCandidates (tasks : List Task) (currentDay : String) : List (Nat × Task) :=
  (withIdx 0 tasks).filter fun it =>
    it.2.day == currentDay && it.2.status != CONFIG.STATUS_MISSED

/-- Stable insertion of one indexed task into a duration-descending list. -/
def insertDesc (x : Nat × Task) : List (Nat × Task) → List (Nat × Task)
  | [] => [x]
  | y :: ys => if y.2.duration ≤ x.2.duration then x :: y :: ys else y :: insertDesc x ys

/-- Model of `dayTasks.sort((a, b) => b.duration - a.duration)`: the stable
descending sort by duration (ES2019 `Array.prototype.sort` is stable). -/
def sortByDurationDesc : List (Nat × Task) → List (Nat × Task)
  | [] => []
  | x :: xs => insertDesc x (sortByDurationDesc xs)

/-- The per-task test of the relocation scan inside `autoBalance`. -/
def movablePred (excess : Int) (it : Nat × Task) : Bool :=
  it.2.status == CONFIG.STATUS_NOT_COMPLETED && decide (it.2.duration ≤ excess)

/-- The relocation scan of `autoBalance`: the `for` loop walks the sorted
candidates from index `length - 1` down to `0` and takes the first hit,
i.e. `find?` over the reversed sorted list. -/
def selectTaskToMove (tasks : List Task) (currentDay : String) (excess : Int) :
    Option (Nat × Task) :=
  ((sortByDurationDesc (dayCandidates tasks currentDay)).reverse).find?
    (movablePred excess)

/-- Observable outcome of one `autoBalance` call: the task array, the number
of relocations performed (`attemptCount` at exit), and the two non-fatal
warnings (`Unable to fit all tasks...` and `Cannot balance schedule...`). -/
structure BalanceResult where
  tasks : List Task
  moves : Nat
  warnedRedistribute : Bool
  warnedBalance : Bool
deriving DecidableEq

/-- The `while (attemptCount < CONFIG.MAX_BALANCE_ATTEMPTS)` loop of
`TaskManager.autoBalance`, with `fuel = MAX_BALANCE_ATTEMPTS - attemptCount`.
Each iteration stops when the day is within the limit, otherwise relocates
the selected task (or warns and stops when none fits); the final
`attemptCount >= MAX_BALANCE_ATTEMPTS` check is the `fuel = 0` case. -/
def autoBalanceGo (limit : Int) : Nat → String → List Task → Nat → BalanceResult
  | 0, _, tasks, moves => ⟨tasks, moves, false, true⟩
  | fuel + 1, currentDay, tasks, moves =>
    if calculateDayTime tasks currentDay ≤ limit then ⟨tasks, moves, false, false⟩
    else
      match selectTaskToMove tasks currentDay
          (calculateDayTime tasks currentDay - limit) with
      | none => ⟨tasks, moves, true, false⟩
      | some (i, t) =>
        autoBalanceGo limit fuel (Utils.getNextDay currentDay)
          (tasks.set i { t with day := Utils.getNextDay currentDay }) (moves + 1)

/-- `TaskManager.autoBalance(originalDay)`. -/
def autoBalance (tasks : List Task) (limit : Int) (originalDay : String) :
    BalanceResult :=
  autoBalanceGo limit CONFIG.MAX_BALANCE_ATTEMPTS (jsToLower originalDay) tasks 0

/-- `TaskManager.addTask(title, duration, day, status)`: validate, construct,
append, auto-balance the day, return the updated store (`.2` is the thrown
error message, `none` on success; both throws precede every mutation). -/
def addTask (s : Store) (now : Nat) (title : String) (durationRaw : Option Int)
    (day : String) (status : String) : Store × Option String :=
  match Validator.validateTaskTitle title with
  | .error e => (s, some e)
  | .ok v =>
    match Validator.validateDuration durationRaw with
    | .error e => (s, some e)
    | .ok num =>
      let task : Task := ⟨(now, s.nextId), v, num, jsToLower day, status, now⟩
      let res := autoBalance (s.tasks ++ [task]) s.dailyLimit day
      ({ tasks := res.tasks, dailyLimit := s.dailyLimit, nextId := s.nextId + 1 }, none)

/-- `findIndex` + `splice(index, 1)`: remove the first task with the given id,
`none` when the id is absent. -/
def removeFirstById : List Task → Nat × Nat → Option (List Task)
  | [], _ => none
  | t :: ts, tid => if t.id = tid then some ts else (removeFirstById ts tid).map (t :: ·)

/-- `TaskManager.deleteTask(taskId)`; the `Bool` is the return value. -/
def deleteTask (s : Store) (tid : Nat × Nat) : Store × Bool :=
  match removeFirstById s.tasks tid with
  | some ts => ({ s with tasks := ts }, true)
  | none => (s, false)

/-- In-place `task.status = newStatus` on the first task with the given id
(the object `find` returned). -/
def markFirstById : List Task → Nat × Nat → String → List Task
  | [], _, _ => []
  | t :: ts, tid, st =>
    if t.id = tid then { t with status := st } :: ts else t :: markFirstById ts tid st

/-- `TaskManager.updateStatus(taskId, newStatus)`: find the task, reject the
`completed -> missed` transition, set the status, and when the new status is
`missed` run `rescheduleTask` (create the `RESCHEDULED:` copy 3 days ahead
with a fresh id, append it, auto-balance its day). -/
def updateStatus (s : Store) (now : Nat) (tid : Nat × Nat) (newStatus : String) :
    Store × Option String :=
  match s.tasks.find? (fun t => t.id == tid) with
  | none => (s, some ("Task not found"))
  | some task =>
    if task.status == CONFIG.STATUS_COMPLETED && newStatus == CONFIG.STATUS_MISSED then
      (s, some ("Completed tasks cannot be marked as missed"))
    else
      let tasks1 := markFirstById s.tasks tid newStatus
      if newStatus == CONFIG.STATUS_MISSED then
        let newDay := Utils.getDayAhead task.day CONFIG.RESCHEDULE_DAYS_AHEAD
        let newTask : Task :=
          ⟨(now, s.nextId), ("RESCHEDULED: ") ++ task.title, task.duration, newDay,
            CONFIG.STATUS_NOT_COMPLETED, now⟩
        let res := autoBalance (tasks1 ++ [newTask]) s.dailyLimit newDay
        ({ tasks := res.tasks, dailyLimit := s.dailyLimit, nextId := s.nextId + 1 }, none)
      else ({ s with tasks := tasks1 }, none)

/-- The fields of a task other than its (mutable) `day`: `autoBalance` only
rewrites days, so the image of the store under `skel` is invariant. -/
def skel (t : Task) : (Nat × Nat) × String × Int × String :=
  (t.id, t.title, t.duration, t.status)

end TaskManager

end App

/-! ### Lemmas about escaping, trimming and the tag test -/

theorem escapeChar_of_not_escapable {c : Char} (h : isEscapable c = false) :
    escapeChar c = [c] := by
  unfold isEscapable at h
  simp only [Bool.or_eq_false_iff, decide_eq_false_iff_not] at h
  obtain ⟨⟨⟨h1, h2⟩, h3⟩, h4⟩ := h
  unfold escapeChar
  simp [h1, h2, h3, h4]

theorem flatMap_escapeChar_of_noEsc {l : List Char}
    (h : ∀ c ∈ l, isEscapable c = false) : l.flatMap escapeChar = l := by
  induction l with
  | nil => rfl
  | cons c cs ih =>
    rw [List.flatMap_cons, escapeChar_of_not_escapable (h c (by simp)),
      ih fun x hx => h x (by simp [hx])]
    rfl

theorem mem_jsTrimList {c : Char} {l : List Char} (h : c ∈ jsTrimList l) : c ∈ l := by
  unfold jsTrimList at h
  exact (List.dropWhile_sublist _).subset ((List.rdropWhile_prefix _ _).sublist.subset h)

theorem length_jsTrimList_le (l : List Char) : (jsTrimList l).length ≤ l.length := by
  unfold jsTrimList
  exact le_trans (List.rdropWhile_prefix _ _).sublist.length_le
    (List.dropWhile_sublist _).length_le

theorem jsTrimList_idem (l : List Char) : jsTrimList (jsTrimList l) = jsTrimList l := by
  unfold jsTrimList
  have hdd : List.dropWhile isJsWhitespace (List.dropWhile isJsWhitespace l) =
      List.dropWhile isJsWhitespace l := List.dropWhile_idempotent _ _
  set m := List.dropWhile isJsWhitespace l with hm
  set A := m.rdropWhile isJsWhitespace with hA
  have hpre : A <+: m := List.rdropWhile_prefix _ _
  have hAdrop : A.dropWhile isJsWhitespace = A := by
    cases hA2 : A with
    | nil => simp
    | cons c rest =>
      obtain ⟨t, ht⟩ := hpre
      rw [hA2] at ht
      have hc : isJsWhitespace c = false := by
        rw [← ht] at hdd
        by_cases hc : isJsWhitespace c
        · rw [List.cons_append, List.dropWhile_cons_of_pos hc] at hdd
          have h1 := congrArg List.length hdd
          have h2 : (List.dropWhile isJsWhitespace (rest ++ t)).length ≤
              (rest ++ t).length := (List.dropWhile_sublist _).length_le
          simp only [List.length_cons] at h1
          omega
        · simpa using hc
      rw [List.dropWhile_cons_of_neg (by simp [hc])]
  rw [hAdrop]
  exact List.rdropWhile_idempotent _ _

theorem hasHtmlTag_eq_false {l : List Char} (h : Char.ofNat 60 ∉ l) :
    hasHtmlTag l = false := by
  induction l with
  | nil => rfl
  | cons c cs ih =>
    unfold hasHtmlTag
    have hc : ¬c = Char.ofNat 60 := fun he => h (by simp [he])
    rw [if_neg (by simpa using hc)]
    exact ih fun hm => h (by simp [hm])

/-! ### Lemmas about day lookup -/

theorem idxOf?_eq_none_of_not_mem {a : String} :
    ∀ {l : List String}, a ∉ l → idxOf? a l = none := by
  intro l
  induction l with
  | nil => intro _; rfl
  | cons x xs ih =>
    intro h
    unfold idxOf?
    rw [if_neg (by rintro rfl; exact h (by simp)), ih fun hm => h (by simp [hm])]
    rfl

/-! ### Claim C7 and C9 theorems -/

/-- C9 (corrected): `Utils.getDayIndex` never fails; it returns the `0`—`6`
position of a recognised (case-insensitive) day token and returns `-1` —
a plain value, not an `InvalidDay` error — for an unrecognised token. -/
theorem getDayIndex_spec (s : String) :
    (jsToLower s ∈ CONFIG.DAYS →
      0 ≤ Utils.getDayIndex s ∧ Utils.getDayIndex s < 7 ∧
      CONFIG.DAYS.getD (Utils.getDayIndex s).toNat "" = jsToLower s) ∧
    (jsToLower s ∉ CONFIG.DAYS → Utils.getDayIndex s = -1) := by
  constructor
  · intro h
    unfold Utils.getDayIndex
    simp only [CONFIG.DAYS, List.mem_cons, List.not_mem_nil, or_false] at h
    rcases h with h | h | h | h | h | h | h <;> rw [h] <;> decide
  · intro h
    unfold Utils.getDayIndex jsIndexOf
    rw [idxOf?_eq_none_of_not_mem h]

/-- Witness for C9 at the concrete token `MONDAY`. -/
theorem getDayIndex_spec_witness :
    jsToLower ("MONDAY") ∈ CONFIG.DAYS ∧
    (0 ≤ Utils.getDayIndex ("MONDAY") ∧ Utils.getDayIndex ("MONDAY") < 7 ∧
      CONFIG.DAYS.getD (Utils.getDayIndex ("MONDAY")).toNat "" = jsToLower ("MONDAY")) :=
  ⟨by decide, (getDayIndex_spec ("MONDAY")).1 (by decide)⟩

/-- C9 counterexample: on the unrecognised token `someday`, `getDayIndex`
returns the value `-1` instead of failing with an `InvalidDay` error. -/
theorem getDayIndex_unrecognized_returns_value :
    Utils.getDayIndex ("someday") = -1 ∧ ¬(0 ≤ Utils.getDayIndex ("someday")) := by
  constructor <;> decide

theorem string_length_data (s : String) : s.length = s.data.length := rfl

/-- C7 (corrected): duration validation is idempotent exactly as claimed; title
validation is idempotent only for accepted titles containing none of the
characters the sanitizer rewrites (`&`, `<`, `>`, U+00A0). Re-validating the
sanitized form of a title that needed escaping re-escapes the `&` of the
produced entity (see the counterexample), so the unrestricted claim fails. -/
theorem validate_idempotent :
    (∀ raw num, Validator.validateDuration raw = .ok num →
      Validator.validateDuration (some num) = .ok num) ∧
    (∀ title v, (∀ c ∈ title.data, isEscapable c = false) →
      Validator.validateTaskTitle title = .ok v →
      Validator.validateTaskTitle v = .ok v) := by
  constructor
  · intro raw num h
    cases raw with
    | none => exact absurd h (by simp [Validator.validateDuration])
    | some n =>
      simp only [Validator.validateDuration] at h ⊢
      by_cases h1 : n ≤ 0
      · rw [if_pos h1] at h; exact absurd h (by simp)
      · rw [if_neg h1] at h
        by_cases h2 : n > CONFIG.MAX_TASK_DURATION
        · rw [if_pos h2] at h; exact absurd h (by simp)
        · rw [if_neg h2] at h
          obtain rfl : n = num := by simpa using h
          rw [if_neg h1, if_neg h2]
  · intro title v hno hok
    unfold Validator.validateTaskTitle at hok
    by_cases h1 : (jsTrim title).length = 0
    · rw [if_pos h1] at hok; exact absurd hok (by simp)
    rw [if_neg h1] at hok
    by_cases h2 : title.length > CONFIG.MAX_TITLE_LENGTH
    · rw [if_pos h2] at hok; exact absurd hok (by simp)
    rw [if_neg h2] at hok
    by_cases h3 : hasHtmlTag title.data = true
    · rw [if_pos h3] at hok; exact absurd hok (by simp)
    rw [if_neg h3] at hok
    have hv : v = Utils.escapeHtml (jsTrim title) := by
      cases hok; rfl
    have hnoTrim : ∀ c ∈ (jsTrim title).data, isEscapable c = false :=
      fun c hc => hno c (mem_jsTrimList hc)
    have hesc : Utils.escapeHtml (jsTrim title) = jsTrim title := by
      unfold Utils.escapeHtml
      rw [flatMap_escapeChar_of_noEsc hnoTrim]
    have hv2 : v = jsTrim title := by rw [hv, hesc]
    have htrimv : jsTrim v = v := by
      rw [hv2]
      show (⟨jsTrimList (jsTrimList title.data)⟩ : String) = _
      rw [jsTrimList_idem]
      rfl
    have hlen : v.length ≤ title.length := by
      rw [hv2, string_length_data, string_length_data]
      exact length_jsTrimList_le title.data
    unfold Validator.validateTaskTitle
    rw [htrimv]
    rw [if_neg (by rw [hv2]; exact h1)]
    rw [if_neg (by omega)]
    rw [if_neg (by
      have : hasHtmlTag v.data = false := by
        apply hasHtmlTag_eq_false
        intro hmem
        have := hnoTrim _ (by rw [hv2] at hmem; exact hmem)
        exact absurd this (by decide)
      simp [this])]
    rw [hv2, hesc, ← hv2]

/-- Witness for C7 at the concrete inputs `abc` and `30`. -/
theorem validate_idempotent_witness :
    Validator.validateTaskTitle ("abc") = .ok ("abc") ∧
    Validator.validateDuration (some 30) = .ok 30 :=
  ⟨validate_idempotent.2 ("abc") ("abc") (by decide) rfl,
    validate_idempotent.1 (some 30) 30 rfl⟩

/-- C7 counterexample: the title `&` is accepted and sanitized to `&amp;`,
but re-validating `&amp;` yields `&amp;amp;`, not the same value, refuting
the unrestricted idempotence claim for titles. -/
theorem validate_title_not_idempotent :
    Validator.validateTaskTitle ("&") = .ok ("&amp;") ∧
    Validator.validateTaskTitle ("&amp;") = .ok ("&amp;amp;") ∧
    Validator.validateTaskTitle ("&amp;") ≠ .ok ("&amp;") := by
  have h2 : Validator.validateTaskTitle ("&amp;") = .ok ("&amp;amp;") := rfl
  refine ⟨rfl, h2, ?_⟩
  rw [h2]
  intro h
  exact absurd (Except.ok.inj h) (by decide)

namespace App

open TaskManager

/-! ### Day arithmetic lemmas -/

theorem mem_DAYS_getD {k : Nat} (hk : k < 7) : CONFIG.DAYS.getD k "" ∈ CONFIG.DAYS := by
  interval_cases k <;> decide

theorem getNextDay_mem (s : String) : Utils.getNextDay s ∈ CONFIG.DAYS := by
  unfold Utils.getNextDay
  apply mem_DAYS_getD
  have h1 : 0 ≤ (Utils.getDayIndex s + 1) % 7 := Int.emod_nonneg _ (by decide)
  have h2 : (Utils.getDayIndex s + 1) % 7 < 7 := Int.emod_lt_of_pos _ (by decide)
  omega

theorem getDayAhead_mem (s : String) (n : Nat) : Utils.getDayAhead s n ∈ CONFIG.DAYS := by
  unfold Utils.getDayAhead
  apply mem_DAYS_getD
  have h1 : 0 ≤ (Utils.getDayIndex s + n) % 7 := Int.emod_nonneg _ (by decide)
  have h2 : (Utils.getDayIndex s + n) % 7 < 7 := Int.emod_lt_of_pos _ (by decide)
  omega

theorem jsToLower_of_mem_DAYS {s : String} (h : s ∈ CONFIG.DAYS) : jsToLower s = s := by
  simp only [CONFIG.DAYS, List.mem_cons, List.not_mem_nil, or_false] at h
  rcases h with h | h | h | h | h | h | h <;> rw [h] <;> decide

/-! ### Stable sort and selection lemmas -/

theorem mem_insertDesc {x y : Nat × Task} {l : List (Nat × Task)} :
    y ∈ insertDesc x l ↔ y = x ∨ y ∈ l := by
  induction l with
  | nil => simp [insertDesc]
  | cons z zs ih =>
    unfold insertDesc
    by_cases h : z.2.duration ≤ x.2.duration
    · rw [if_pos h]
      simp [List.mem_cons]
    · rw [if_neg h]
      simp only [List.mem_cons, ih]
      tauto

theorem mem_sortByDurationDesc {y : Nat × Task} {l : List (Nat × Task)} :
    y ∈ sortByDurationDesc l ↔ y ∈ l := by
  induction l with
  | nil => simp [sortByDurationDesc]
  | cons x xs ih =>
    unfold sortByDurationDesc
    rw [mem_insertDesc]
    simp [ih]

theorem pairwise_insertDesc {x : Nat × Task} {l : List (Nat × Task)}
    (h : l.Pairwise fun a b => b.2.duration ≤ a.2.duration) :
    (insertDesc x l).Pairwise fun a b => b.2.duration ≤ a.2.duration := by
  induction l with
  | nil => simp [insertDesc]
  | cons z zs ih =>
    rcases List.pairwise_cons.mp h with ⟨hz, hzs⟩
    unfold insertDesc
    by_cases hle : z.2.duration ≤ x.2.duration
    · rw [if_pos hle]
      refine List.pairwise_cons.mpr ⟨?_, h⟩
      intro b hb
      rcases List.mem_cons.mp hb with rfl | hb
      · exact hle
      · exact le_trans (hz b hb) hle
    · rw [if_neg hle]
      refine List.pairwise_cons.mpr ⟨?_, ih hzs⟩
      intro b hb
      rcases mem_insertDesc.mp hb with rfl | hb
      · omega
      · exact hz b hb

theorem pairwise_sortByDurationDesc (l : List (Nat × Task)) :
    (sortByDurationDesc l).Pairwise fun a b => b.2.duration ≤ a.2.duration := by
  induction l with
  | nil => simp [sortByDurationDesc]
  | cons x xs ih => exact pairwise_insertDesc ih

theorem find?_min_of_sorted_asc {p : Nat × Task → Bool} :
    ∀ {l : List (Nat × Task)}, (l.Pairwise fun a b => a.2.duration ≤ b.2.duration) →
      ∀ {x}, l.find? p = some x → ∀ y ∈ l, p y = true →
        x.2.duration ≤ y.2.duration := by
  intro l
  induction l with
  | nil => intro _ x hx; simp at hx
  | cons z zs ih =>
    intro hp x hx y hy hpy
    rcases List.pairwise_cons.mp hp with ⟨hz, hzs⟩
    by_cases hpz : p z = true
    · rw [List.find?_cons_of_pos _ hpz] at hx
      obtain rfl : z = x := by simpa using hx
      rcases List.mem_cons.mp hy with rfl | hy
      · exact le_refl _
      · exact hz y hy
    · rw [List.find?_cons_of_neg _ (by simpa using hpz)] at hx
      rcases List.mem_cons.mp hy with rfl | hy
      · exact absurd hpy hpz
      · exact ih hzs hx y hy hpy

theorem find?_exists {p : Nat × Task → Bool} {l : List (Nat × Task)}
    (h : ∃ x ∈ l, p x = true) : ∃ x, l.find? p = some x := by
  cases hf : l.find? p with
  | some x => exact ⟨x, rfl⟩
  | none =>
    obtain ⟨x, hx, hpx⟩ := h
    rw [List.find?_eq_none] at hf
    exact absurd hpx (by simp [hf x hx])

theorem withIdx_get {t : Task} :
    ∀ {l : List Task} {n i : Nat}, (i, t) ∈ withIdx n l →
      ∃ j, i = n + j ∧ l.get? j = some t := by
  intro l
  induction l with
  | nil => intro n i h; simp [withIdx] at h
  | cons u us ih =>
    intro n i h
    unfold withIdx at h
    rcases List.mem_cons.mp h with heq | hmem
    · obtain ⟨rfl, rfl⟩ : i = n ∧ t = u := by
        constructor <;> [exact congrArg Prod.fst heq; exact congrArg Prod.snd heq]
      exact ⟨0, by omega, rfl⟩
    · obtain ⟨j, hj, hget⟩ := ih hmem
      exact ⟨j + 1, by omega, by simpa using hget⟩

theorem mem_withIdx_of_mem {t : Task} :
    ∀ {l : List Task} {n : Nat}, t ∈ l → ∃ i, (i, t) ∈ withIdx n l := by
  intro l
  induction l with
  | nil => intro n h; simp at h
  | cons u us ih =>
    intro n h
    rcases List.mem_cons.mp h with rfl | hmem
    · exact ⟨n, by unfold withIdx; simp⟩
    · obtain ⟨i, hi⟩ := ih (n := n + 1) hmem
      exact ⟨i, by unfold withIdx; simp [hi]⟩

theorem selectTaskToMove_mem {tasks : List Task} {cd : String} {ex : Int}
    {i : Nat} {t : Task} (h : selectTaskToMove tasks cd ex = some (i, t)) :
    tasks.get? i = some t ∧ t.day = cd ∧
      t.status = CONFIG.STATUS_NOT_COMPLETED ∧ t.duration ≤ ex := by
  unfold selectTaskToMove at h
  have hp := List.find?_some h
  have hmem := List.mem_of_find?_eq_some h
  rw [List.mem_reverse, mem_sortByDurationDesc] at hmem
  unfold dayCandidates at hmem
  rw [List.mem_filter] at hmem
  obtain ⟨hmemIdx, hflt⟩ := hmem
  obtain ⟨j, hij, hget⟩ := withIdx_get hmemIdx
  rw [Bool.and_eq_true] at hflt
  unfold movablePred at hp
  rw [Bool.and_eq_true] at hp
  refine ⟨?_, by simpa using hflt.1, by simpa using hp.1, by simpa using hp.2⟩
  rw [show i = j by omega]
  exact hget

/-! ### Claim C1: which task an iteration relocates -/

/-- C1 (corrected): in an Auto-Balance iteration on an over-limit day with at
least one fitting candidate, the relocated task (the one `selectTaskToMove`
returns, which `autoBalanceGo` then moves to the next day) is a not-completed
task of the day with `duration ≤ excess` of MINIMAL duration among all such
tasks — the scan walks the duration-descending sorted candidates from the
smallest end, so it prefers the smallest fitting task, not the largest. -/
theorem autoBalance_selects_smallest_fit (tasks : List Task) (currentDay : String)
    (limit excess : Int) (_hlow : jsToLower currentDay = currentDay)
    (_hover : limit < calculateDayTime tasks currentDay)
    (_hex : excess = calculateDayTime tasks currentDay - limit)
    (hfit : ∃ t ∈ tasks, t.day = currentDay ∧
      t.status = CONFIG.STATUS_NOT_COMPLETED ∧ t.duration ≤ excess) :
    ∃ i t, selectTaskToMove tasks currentDay excess = some (i, t) ∧
      tasks.get? i = some t ∧ t.day = currentDay ∧
      t.status = CONFIG.STATUS_NOT_COMPLETED ∧ t.duration ≤ excess ∧
      ∀ u ∈ tasks, u.day = currentDay → u.status = CONFIG.STATUS_NOT_COMPLETED →
        u.duration ≤ excess → t.duration ≤ u.duration := by
  have hmemrev : ∀ u ∈ tasks, u.day = currentDay →
      u.status = CONFIG.STATUS_NOT_COMPLETED → u.duration ≤ excess →
      ∃ k, (k, u) ∈ (sortByDurationDesc (dayCandidates tasks currentDay)).reverse ∧
        movablePred excess (k, u) = true := by
    intro u hu hd hs hdur
    obtain ⟨k, hk⟩ := mem_withIdx_of_mem (n := 0) hu
    refine ⟨k, ?_, ?_⟩
    · rw [List.mem_reverse, mem_sortByDurationDesc]
      unfold dayCandidates
      rw [List.mem_filter]
      exact ⟨hk, by simp [hd, hs, CONFIG.STATUS_NOT_COMPLETED, CONFIG.STATUS_MISSED]⟩
    · unfold movablePred
      simp [hs, hdur]
  obtain ⟨t0, ht0, ht0d, ht0s, ht0dur⟩ := hfit
  obtain ⟨k0, hk0mem, hk0p⟩ := hmemrev t0 ht0 ht0d ht0s ht0dur
  obtain ⟨x, hx⟩ : ∃ x, ((sortByDurationDesc (dayCandidates tasks currentDay)).reverse).find?
      (movablePred excess) = some x := find?_exists ⟨(k0, t0), hk0mem, hk0p⟩
  obtain ⟨i, t⟩ := x
  have hsel : selectTaskToMove tasks currentDay excess = some (i, t) := hx
  obtain ⟨hget, hday, hst, hdur⟩ := selectTaskToMove_mem hsel
  refine ⟨i, t, hsel, hget, hday, hst, hdur, ?_⟩
  intro u hu hud hus hudur
  obtain ⟨k, hkmem, hkp⟩ := hmemrev u hu hud hus hudur
  have hsorted : ((sortByDurationDesc (dayCandidates tasks currentDay)).reverse).Pairwise
      fun a b => a.2.duration ≤ b.2.duration := by
    rw [List.pairwise_reverse]
    exact pairwise_sortByDurationDesc _
  exact find?_min_of_sorted_asc hsorted hx (k, u) hkmem hkp

/-- Witness for C1 on a single fitting task. -/
theorem autoBalance_selects_smallest_fit_witness :
    (jsToLower ("monday") = "monday") ∧
    ((0 : Int) < calculateDayTime
      [⟨(0, 1), ("a"), 30, ("monday"), CONFIG.STATUS_NOT_COMPLETED, 0⟩] ("monday")) ∧
    (∃ i t, selectTaskToMove
        [⟨(0, 1), ("a"), 30, ("monday"), CONFIG.STATUS_NOT_COMPLETED, 0⟩]
        ("monday") 30 = some (i, t) ∧
      ([⟨(0, 1), ("a"), 30, ("monday"), CONFIG.STATUS_NOT_COMPLETED, 0⟩] :
        List Task).get? i = some t ∧
      t.day = ("monday") ∧ t.status = CONFIG.STATUS_NOT_COMPLETED ∧ t.duration ≤ 30 ∧
      ∀ u ∈ ([⟨(0, 1), ("a"), 30, ("monday"), CONFIG.STATUS_NOT_COMPLETED, 0⟩] :
        List Task),
        u.day = ("monday") → u.status = CONFIG.STATUS_NOT_COMPLETED →
        u.duration ≤ 30 → t.duration ≤ u.duration) :=
  ⟨by decide, by decide,
    autoBalance_selects_smallest_fit
      [⟨(0, 1), ("a"), 30, ("monday"), CONFIG.STATUS_NOT_COMPLETED, 0⟩]
      ("monday") 0 30 (by decide) (by decide) (by decide)
      ⟨⟨(0, 1), ("a"), 30, ("monday"), CONFIG.STATUS_NOT_COMPLETED, 0⟩,
        by decide, by decide, by decide, by decide⟩⟩

/-- C1 counterexample: on a Monday holding not-completed tasks of durations 30
and 50 with `dailyLimit = 10` (total 80, excess 70, both fit), the iteration
relocates the duration-30 task — the SMALLEST fitting candidate — while the
claim predicts the largest fitting one (duration 50), which stays put. -/
theorem autoBalance_moves_smallest_not_largest :
    calculateDayTime
      [⟨(0, 1), ("a"), 30, ("monday"), CONFIG.STATUS_NOT_COMPLETED, 0⟩,
        ⟨(0, 2), ("b"), 50, ("monday"), CONFIG.STATUS_NOT_COMPLETED, 0⟩] ("monday") - 10 = 70 ∧
    selectTaskToMove
      [⟨(0, 1), ("a"), 30, ("monday"), CONFIG.STATUS_NOT_COMPLETED, 0⟩,
        ⟨(0, 2), ("b"), 50, ("monday"), CONFIG.STATUS_NOT_COMPLETED, 0⟩] ("monday") 70 =
      some (0, ⟨(0, 1), ("a"), 30, ("monday"), CONFIG.STATUS_NOT_COMPLETED, 0⟩) ∧
    (autoBalance
      [⟨(0, 1), ("a"), 30, ("monday"), CONFIG.STATUS_NOT_COMPLETED, 0⟩,
        ⟨(0, 2), ("b"), 50, ("monday"), CONFIG.STATUS_NOT_COMPLETED, 0⟩] 10 ("monday")).tasks =
      [⟨(0, 1), ("a"), 30, ("tuesday"), CONFIG.STATUS_NOT_COMPLETED, 0⟩,
        ⟨(0, 2), ("b"), 50, ("monday"), CONFIG.STATUS_NOT_COMPLETED, 0⟩] := by
  refine ⟨by decide, by decide, by decide⟩

/-! ### Auto-balance: bounded work and field preservation -/

theorem map_skel_set {t a : Task} :
    ∀ {l : List Task} {i : Nat}, l.get? i = some t → skel a = skel t →
      (l.set i a).map skel = l.map skel := by
  intro l
  induction l with
  | nil => intro i h _; simp at h
  | cons u us ih =>
    intro i h hsk
    cases i with
    | zero =>
      obtain rfl : u = t := by simpa using h
      simp only [List.set_cons_zero, List.map_cons, hsk]
    | succ j =>
      simp only [List.set_cons_succ, List.map_cons]
      rw [ih (by simpa using h) hsk]

theorem autoBalanceGo_map_skel (limit : Int) :
    ∀ (fuel : Nat) (cd : String) (tasks : List Task) (m : Nat),
      ((autoBalanceGo limit fuel cd tasks m).tasks).map skel = tasks.map skel := by
  intro fuel
  induction fuel with
  | zero => intro cd tasks m; rfl
  | succ n ih =>
    intro cd tasks m
    show (autoBalanceGo limit (n + 1) cd tasks m).tasks.map skel = tasks.map skel
    rw [autoBalanceGo]
    by_cases h1 : calculateDayTime tasks cd ≤ limit
    · rw [if_pos h1]
    · rw [if_neg h1]
      cases hsel : selectTaskToMove tasks cd (calculateDayTime tasks cd - limit) with
      | none => rfl
      | some it =>
        obtain ⟨i, t⟩ := it
        obtain ⟨hget, _, _, _⟩ := selectTaskToMove_mem hsel
        dsimp only
        rw [ih, map_skel_set (a := { t with day := Utils.getNextDay cd }) hget rfl]

theorem autoBalanceGo_length (limit : Int) (fuel : Nat) (cd : String)
    (tasks : List Task) (m : Nat) :
    (autoBalanceGo limit fuel cd tasks m).tasks.length = tasks.length := by
  have h := congrArg List.length (autoBalanceGo_map_skel limit fuel cd tasks m)
  simpa using h

theorem autoBalanceGo_moves_le (limit : Int) :
    ∀ (fuel : Nat) (cd : String) (tasks : List Task) (m : Nat),
      (autoBalanceGo limit fuel cd tasks m).moves ≤ m + fuel := by
  intro fuel
  induction fuel with
  | zero => intro cd tasks m; simp [autoBalanceGo]
  | succ n ih =>
    intro cd tasks m
    rw [autoBalanceGo]
    by_cases h1 : calculateDayTime tasks cd ≤ limit
    · rw [if_pos h1]; dsimp only; omega
    · rw [if_neg h1]
      cases hsel : selectTaskToMove tasks cd (calculateDayTime tasks cd - limit) with
      | none => dsimp only; omega
      | some it =>
        obtain ⟨i, t⟩ := it
        dsimp only
        exact le_trans (ih _ _ (m + 1)) (by omega)

/-- C2 (confirmed): one `autoBalance` invocation is a terminating (fuel-bounded)
computation that performs at most `MAX_BALANCE_ATTEMPTS = 7` relocations (the
loop reassigns at most one task per iteration and runs at most 7 iterations),
and it never creates or deletes tasks. -/
theorem autoBalance_bounded (tasks : List Task) (limit : Int) (day : String) :
    (autoBalance tasks limit day).moves ≤ CONFIG.MAX_BALANCE_ATTEMPTS ∧
    CONFIG.MAX_BALANCE_ATTEMPTS = 7 ∧
    (autoBalance tasks limit day).tasks.length = tasks.length := by
  refine ⟨?_, rfl, autoBalanceGo_length _ _ _ _ _⟩
  have h := autoBalanceGo_moves_le limit CONFIG.MAX_BALANCE_ATTEMPTS
    (jsToLower day) tasks 0
  simpa [autoBalance] using h

/-! ### Claim C8: the degenerate limit-0 scenario -/

/-- Iterated `getNextDay`. -/
def nextDayIter : Nat → String → String
  | 0, d => d
  | n + 1, d => nextDayIter n (Utils.getNextDay d)

theorem autoBalanceGo_single_task :
    ∀ (fuel : Nat) (d : String) (t : Task) (m : Nat),
      t.day = d → d ∈ CONFIG.DAYS → t.status = CONFIG.STATUS_NOT_COMPLETED →
      1 ≤ t.duration →
      autoBalanceGo 0 fuel d [t] m =
        ⟨[{ t with day := nextDayIter fuel d }], m + fuel, false, true⟩ := by
  intro fuel
  induction fuel with
  | zero =>
    intro d t m hday hmem hst hdur
    obtain ⟨tid, ttl, tdur, tday, tst, tad⟩ := t
    cases hday
    rfl
  | succ n ih =>
    intro d t m hday hmem hst hdur
    have hjl : jsToLower d = d := jsToLower_of_mem_DAYS hmem
    have hcalc : calculateDayTime [t] d = t.duration := by
      unfold calculateDayTime
      rw [hjl]
      simp [hday, hst, CONFIG.STATUS_NOT_COMPLETED, CONFIG.STATUS_MISSED]
    rw [autoBalanceGo]
    rw [if_neg (by rw [hcalc]; omega)]
    have hsel : selectTaskToMove [t] d (calculateDayTime [t] d - 0) = some (0, t) := by
      rw [hcalc]
      unfold selectTaskToMove dayCandidates
      simp [withIdx, movablePred, sortByDurationDesc, insertDesc, hday, hst,
        CONFIG.STATUS_NOT_COMPLETED, CONFIG.STATUS_MISSED]
    rw [hsel]
    dsimp only
    have happ := ih (Utils.getNextDay d) { t with day := Utils.getNextDay d } (m + 1)
      rfl (getNextDay_mem d) (by simpa using hst) (by simpa using hdur)
    rw [show m + (n + 1) = m + 1 + n from by omega]
    exact happ

/-- C8 (confirmed): with `dailyLimit = 0` and a store holding exactly one
positive-duration not-completed task on a valid day `d`, `autoBalance`
starting at `d` relocates the task once per iteration, exhausts all 7
attempts (`moves = 7`), emits the cannot-balance warning (and not the
cannot-redistribute one), and parks the task 7 days forward — back on `d`. -/
theorem autoBalance_degenerate_limit (d : String) (t : Task)
    (hd : d ∈ CONFIG.DAYS) (hday : t.day = d)
    (hst : t.status = CONFIG.STATUS_NOT_COMPLETED) (hdur : 1 ≤ t.duration) :
    autoBalance [t] 0 d = ⟨[t], 7, false, true⟩ := by
  subst hday
  have h7 : nextDayIter 7 t.day = t.day := by
    have hd' := hd
    simp only [CONFIG.DAYS, List.mem_cons, List.not_mem_nil, or_false] at hd'
    rcases hd' with h | h | h | h | h | h | h <;> rw [h] <;> decide
  unfold autoBalance
  rw [jsToLower_of_mem_DAYS hd]
  show autoBalanceGo 0 7 t.day [t] 0 = ⟨[t], 7, false, true⟩
  rw [autoBalanceGo_single_task 7 t.day t 0 rfl hd hst hdur, h7]

/-- Witness for C8 on a concrete 30-minute Monday task. -/
theorem autoBalance_degenerate_limit_witness :
    autoBalance [⟨(0, 1), ("a"), 30, ("monday"), CONFIG.STATUS_NOT_COMPLETED, 0⟩]
        0 ("monday") =
      ⟨[⟨(0, 1), ("a"), 30, ("monday"), CONFIG.STATUS_NOT_COMPLETED, 0⟩], 7, false, true⟩ :=
  autoBalance_degenerate_limit ("monday")
    ⟨(0, 1), ("a"), 30, ("monday"), CONFIG.STATUS_NOT_COMPLETED, 0⟩
    (by decide) rfl rfl (by decide)

/-! ### Claim C10: case-insensitivity of the day argument -/

theorem jsToLower_idem_of_valid {day : String} (h : jsToLower day ∈ CONFIG.DAYS) :
    jsToLower (jsToLower day) = jsToLower day := by
  have h' := h
  simp only [CONFIG.DAYS, List.mem_cons, List.not_mem_nil, or_false] at h'
  rcases h' with h' | h' | h' | h' | h' | h' | h' <;> rw [h'] <;> decide

/-- C10 (confirmed): each day-keyed operation lowercases its day argument
(`addTask` stores `day.toLowerCase()` and balances `day`; `calculateDayTime`,
`getTasksByDay` and `autoBalance` lowercase before comparing), so on a valid
day token given in mixed case each operation behaves identically to the same
call with the lowercase token. -/
theorem day_operations_case_insensitive (day : String)
    (h : jsToLower day ∈ CONFIG.DAYS) :
    (∀ s now title dur st, addTask s now title dur day st =
      addTask s now title dur (jsToLower day) st) ∧
    (∀ tasks, calculateDayTime tasks day = calculateDayTime tasks (jsToLower day)) ∧
    (∀ tasks, getTasksByDay tasks day = getTasksByDay tasks (jsToLower day)) ∧
    (∀ tasks limit, autoBalance tasks limit day =
      autoBalance tasks limit (jsToLower day)) := by
  have hid : jsToLower (jsToLower day) = jsToLower day := jsToLower_idem_of_valid h
  refine ⟨?_, ?_, ?_, ?_⟩
  · intro s now title dur st
    simp only [addTask, autoBalance, hid]
  · intro tasks
    simp only [calculateDayTime, hid]
  · intro tasks
    simp only [getTasksByDay, hid]
  · intro tasks limit
    simp only [autoBalance, hid]

/-- Witness for C10 at the mixed-case token `MonDay`. -/
theorem day_operations_case_insensitive_witness :
    jsToLower ("MonDay") ∈ CONFIG.DAYS ∧
    (∀ tasks, calculateDayTime tasks ("MonDay") =
      calculateDayTime tasks (jsToLower ("MonDay"))) :=
  ⟨by decide, (day_operations_case_insensitive ("MonDay") (by decide)).2.1⟩

/-! ### Claim C6: error paths leave the store untouched -/

/-- C6 (confirmed): if `addTask` throws a validation error, or `updateStatus`
throws TaskNotFound or IllegalTransition, the returned store is exactly the
input store — in the source both functions throw before any mutation. -/
theorem error_paths_leave_store_unchanged :
    (∀ s now title dur day st e, (addTask s now title dur day st).2 = some e →
      (addTask s now title dur day st).1 = s) ∧
    (∀ s now tid st e, (updateStatus s now tid st).2 = some e →
      (updateStatus s now tid st).1 = s) := by
  constructor
  · intro s now title dur day st e h
    unfold addTask at h ⊢
    split at h
    next e1 heq =>
      rfl
    next v heq =>
      split at h
      next e2 heq2 =>
        rfl
      next num heq2 =>
        dsimp only at h
        exact Option.noConfusion h
  · intro s now tid st e h
    unfold updateStatus at h ⊢
    split at h
    next heq =>
      rfl
    next task heq =>
      split at h
      next hguard =>
        rw [if_pos hguard]
      next hguard =>
        split at h
        next hmiss =>
          dsimp only at h
          exact Option.noConfusion h
        next hmiss =>
          dsimp only at h
          exact Option.noConfusion h

/-- Witness for C6: an empty title and an absent task id leave the store as
it was. -/
theorem error_paths_leave_store_unchanged_witness :
    (addTask initialStore 0 ("") (some 30) ("monday")
      CONFIG.STATUS_NOT_COMPLETED).2 = some ("Task title is required") ∧
    (addTask initialStore 0 ("") (some 30) ("monday")
      CONFIG.STATUS_NOT_COMPLETED).1 = initialStore ∧
    (updateStatus initialStore 0 (0, 1) CONFIG.STATUS_MISSED).2 =
      some ("Task not found") ∧
    (updateStatus initialStore 0 (0, 1) CONFIG.STATUS_MISSED).1 = initialStore :=
  ⟨by decide,
    error_paths_leave_store_unchanged.1 initialStore 0 ("") (some 30) ("monday")
      CONFIG.STATUS_NOT_COMPLETED ("Task title is required") (by decide),
    by decide,
    error_paths_leave_store_unchanged.2 initialStore 0 (0, 1) CONFIG.STATUS_MISSED
      ("Task not found") (by decide)⟩

/-! ### Lemmas about markFirstById and autoBalance wrappers -/

theorem markFirstById_length (l : List Task) (tid : Nat × Nat) (st : String) :
    (markFirstById l tid st).length = l.length := by
  induction l with
  | nil => rfl
  | cons u us ih =>
    unfold markFirstById
    by_cases h : u.id = tid
    · rw [if_pos h]
      simp
    · rw [if_neg h]
      simp [ih]

theorem markFirstById_mem {tid : Nat × Nat} {st : String} {u : Task} :
    ∀ {l : List Task}, u ∈ markFirstById l tid st →
      ∃ v ∈ l, u.id = v.id ∧ u.title = v.title ∧ u.duration = v.duration ∧
        u.day = v.day ∧ (u.status = v.status ∨ u.status = st) := by
  intro l
  induction l with
  | nil => intro h; simp [markFirstById] at h
  | cons w ws ih =>
    intro h
    unfold markFirstById at h
    by_cases hw : w.id = tid
    · rw [if_pos hw] at h
      rcases List.mem_cons.mp h with rfl | hmem
      · exact ⟨w, by simp, rfl, rfl, rfl, rfl, Or.inr rfl⟩
      · exact ⟨u, by simp [hmem], rfl, rfl, rfl, rfl, Or.inl rfl⟩
    · rw [if_neg hw] at h
      rcases List.mem_cons.mp h with rfl | hmem
      · exact ⟨u, by simp, rfl, rfl, rfl, rfl, Or.inl rfl⟩
      · obtain ⟨v, hv, hrest⟩ := ih hmem
        exact ⟨v, by simp [hv], hrest⟩

theorem autoBalance_length (tasks : List Task) (limit : Int) (day : String) :
    (autoBalance tasks limit day).tasks.length = tasks.length :=
  autoBalanceGo_length _ _ _ _ _

theorem autoBalance_map_skel (tasks : List Task) (limit : Int) (day : String) :
    (autoBalance tasks limit day).tasks.map skel = tasks.map skel :=
  autoBalanceGo_map_skel _ _ _ _ _

/-! ### Claim C5: when updateStatus has side effects -/

/-- C5 (corrected): `updateStatus` invokes the reschedule algorithm iff the
new status is `missed` — INCLUDING when the task's previous status was
already `missed` (the code tests only `newStatus`); a successful entry into
any other status changes nothing but the status field of the first task with
the given id. -/
theorem updateStatus_side_effects (s : Store) (now : Nat) (tid : Nat × Nat)
    (st : String) (task : Task)
    (hfind : s.tasks.find? (fun t => t.id == tid) = some task)
    (hguard : ¬(task.status = CONFIG.STATUS_COMPLETED ∧ st = CONFIG.STATUS_MISSED)) :
    (st = CONFIG.STATUS_MISSED →
      (updateStatus s now tid st).2 = none ∧
      (updateStatus s now tid st).1.tasks.length = s.tasks.length + 1) ∧
    (st ≠ CONFIG.STATUS_MISSED →
      updateStatus s now tid st =
        ({ tasks := markFirstById s.tasks tid st,
           dailyLimit := s.dailyLimit,
           nextId := s.nextId }, none) ∧
      (markFirstById s.tasks tid st).length = s.tasks.length ∧
      ∀ u ∈ markFirstById s.tasks tid st, ∃ v ∈ s.tasks,
        u.id = v.id ∧ u.title = v.title ∧ u.duration = v.duration ∧
        u.day = v.day ∧ (u.status = v.status ∨ u.status = st)) := by
  have hgb : (task.status == CONFIG.STATUS_COMPLETED &&
      st == CONFIG.STATUS_MISSED) = false := by
    by_cases h1 : task.status = CONFIG.STATUS_COMPLETED
    · by_cases h2 : st = CONFIG.STATUS_MISSED
      · exact absurd ⟨h1, h2⟩ hguard
      · simp [h2]
    · simp [h1]
  constructor
  · intro hm
    subst hm
    unfold updateStatus
    rw [hfind]
    dsimp only
    rw [hgb]
    rw [if_neg (by simp)]
    rw [if_pos (by simp)]
    refine ⟨rfl, ?_⟩
    dsimp only
    rw [autoBalance_length, List.length_append, markFirstById_length]
    rfl
  · intro hnm
    unfold updateStatus
    rw [hfind]
    dsimp only
    rw [hgb]
    rw [if_neg (by simp)]
    rw [if_neg (by simpa using hnm)]
    exact ⟨rfl, markFirstById_length s.tasks tid st,
      fun u hu => markFirstById_mem hu⟩

/-- Witness for C5: a not-missed entry only sets the status field. -/
theorem updateStatus_side_effects_witness :
    updateStatus ⟨[⟨(0, 1), ("a"), 30, ("monday"), CONFIG.STATUS_NOT_COMPLETED, 0⟩],
        150, 2⟩ 5 (0, 1) CONFIG.STATUS_COMPLETED =
      ({ tasks := markFirstById
             [⟨(0, 1), ("a"), 30, ("monday"), CONFIG.STATUS_NOT_COMPLETED, 0⟩]
             (0, 1) CONFIG.STATUS_COMPLETED,
         dailyLimit := 150, nextId := 2 }, none) :=
  ((updateStatus_side_effects
    ⟨[⟨(0, 1), ("a"), 30, ("monday"), CONFIG.STATUS_NOT_COMPLETED, 0⟩], 150, 2⟩
    5 (0, 1) CONFIG.STATUS_COMPLETED
    ⟨(0, 1), ("a"), 30, ("monday"), CONFIG.STATUS_NOT_COMPLETED, 0⟩
    (by decide) (by decide)).2 (by decide)).1

/-- C5 counterexample: re-marking an already-missed task as missed triggers
the reschedule side effect again — the call succeeds and the store grows to
two tasks although the status did not enter `missed` from a different state,
refuting the only-if direction of the claim. -/
theorem updateStatus_missed_to_missed_reschedules :
    (updateStatus ⟨[⟨(0, 1), ("a"), 30, ("monday"), CONFIG.STATUS_MISSED, 0⟩],
        150, 2⟩ 5 (0, 1) CONFIG.STATUS_MISSED).2 = none ∧
    (updateStatus ⟨[⟨(0, 1), ("a"), 30, ("monday"), CONFIG.STATUS_MISSED, 0⟩],
        150, 2⟩ 5 (0, 1) CONFIG.STATUS_MISSED).1.tasks.length = 2 := by
  refine ⟨by decide, by decide⟩

/-! ### Claim C3: the reschedule algorithm -/

/-- C3 (corrected): marking a non-completed task `t` as missed succeeds and
appends exactly one newly created task — fresh id `(now, nextId)`, title
`RESCHEDULED: ` + `t.title`, the same duration, status not-completed — whose
day AT INSERTION is `getDayAhead t.day 3`; the store is then immediately
auto-balanced starting at that day, which can relocate the new task onward,
so the new task's day in the post-call store is not in general
`getDayAhead t.day 3` (see the counterexample). -/
theorem updateStatus_missed_spawns_reschedule (s : Store) (now : Nat)
    (tid : Nat × Nat) (t : Task)
    (hfind : s.tasks.find? (fun x => x.id == tid) = some t)
    (hst : t.status ≠ CONFIG.STATUS_COMPLETED) :
    (updateStatus s now tid CONFIG.STATUS_MISSED).2 = none ∧
    (updateStatus s now tid CONFIG.STATUS_MISSED).1.tasks =
      (autoBalance (markFirstById s.tasks tid CONFIG.STATUS_MISSED ++
          [⟨(now, s.nextId), ("RESCHEDULED: ") ++ t.title, t.duration,
            Utils.getDayAhead t.day CONFIG.RESCHEDULE_DAYS_AHEAD,
            CONFIG.STATUS_NOT_COMPLETED, now⟩])
        s.dailyLimit (Utils.getDayAhead t.day CONFIG.RESCHEDULE_DAYS_AHEAD)).tasks ∧
    (updateStatus s now tid CONFIG.STATUS_MISSED).1.tasks.length =
      s.tasks.length + 1 ∧
    ∃ u, (updateStatus s now tid CONFIG.STATUS_MISSED).1.tasks.get?
        s.tasks.length = some u ∧
      u.id = (now, s.nextId) ∧ u.title = ("RESCHEDULED: ") ++ t.title ∧
      u.duration = t.duration ∧ u.status = CONFIG.STATUS_NOT_COMPLETED := by
  set nt : Task := ⟨(now, s.nextId), ("RESCHEDULED: ") ++ t.title, t.duration,
    Utils.getDayAhead t.day CONFIG.RESCHEDULE_DAYS_AHEAD,
    CONFIG.STATUS_NOT_COMPLETED, now⟩ with hnt
  set L : List Task := markFirstById s.tasks tid CONFIG.STATUS_MISSED ++ [nt] with hL
  have hgb : (t.status == CONFIG.STATUS_COMPLETED &&
      CONFIG.STATUS_MISSED == CONFIG.STATUS_MISSED) = false := by
    simp [hst]
  have hred : updateStatus s now tid CONFIG.STATUS_MISSED =
      ({ tasks := (autoBalance L s.dailyLimit
           (Utils.getDayAhead t.day CONFIG.RESCHEDULE_DAYS_AHEAD)).tasks,
         dailyLimit := s.dailyLimit, nextId := s.nextId + 1 }, none) := by
    unfold updateStatus
    rw [hfind]
    dsimp only
    rw [hgb]
    rw [if_neg (by simp), if_pos (by simp)]
  have hlenL : L.length = s.tasks.length + 1 := by
    rw [hL, List.length_append, markFirstById_length]
    rfl
  refine ⟨by rw [hred], by rw [hred], ?_, ?_⟩
  · rw [hred]
    dsimp only
    rw [autoBalance_length, hlenL]
  · have hsk := autoBalance_map_skel L s.dailyLimit
      (Utils.getDayAhead t.day CONFIG.RESCHEDULE_DAYS_AHEAD)
    have hn := congrArg (fun l => l.get? s.tasks.length) hsk
    dsimp only at hn
    rw [List.get?_map, List.get?_map] at hn
    have hgetL : L.get? s.tasks.length = some nt := by
      rw [hL, ← markFirstById_length s.tasks tid CONFIG.STATUS_MISSED]
      exact List.get?_concat_length _ _
    rw [hgetL] at hn
    cases hx : (autoBalance L s.dailyLimit
        (Utils.getDayAhead t.day CONFIG.RESCHEDULE_DAYS_AHEAD)).tasks.get?
        s.tasks.length with
    | none => rw [hx] at hn; simp at hn
    | some u =>
      rw [hx] at hn
      have hskel : skel u = skel nt := by simpa using hn
      have hfields : u.id = (now, s.nextId) ∧ u.title = ("RESCHEDULED: ") ++ t.title ∧
          u.duration = t.duration ∧ u.status = CONFIG.STATUS_NOT_COMPLETED := by
        have h1 := congrArg Prod.fst hskel
        have h2 := congrArg (fun q => q.2.1) hskel
        have h3 := congrArg (fun q => q.2.2.1) hskel
        have h4 := congrArg (fun q => q.2.2.2) hskel
        exact ⟨h1, h2, h3, h4⟩
      exact ⟨u, by rw [hred]; exact hx, hfields.1, hfields.2.1, hfields.2.2.1,
        hfields.2.2.2⟩

/-- Witness for C3 on a one-task store. -/
theorem updateStatus_missed_spawns_reschedule_witness :
    (updateStatus ⟨[⟨(0, 1), ("a"), 30, ("monday"), CONFIG.STATUS_NOT_COMPLETED, 0⟩],
        150, 2⟩ 5 (0, 1) CONFIG.STATUS_MISSED).2 = none ∧
    (updateStatus ⟨[⟨(0, 1), ("a"), 30, ("monday"), CONFIG.STATUS_NOT_COMPLETED, 0⟩],
        150, 2⟩ 5 (0, 1) CONFIG.STATUS_MISSED).1.tasks.length = 1 + 1 :=
  ⟨(updateStatus_missed_spawns_reschedule
      ⟨[⟨(0, 1), ("a"), 30, ("monday"), CONFIG.STATUS_NOT_COMPLETED, 0⟩], 150, 2⟩
      5 (0, 1) ⟨(0, 1), ("a"), 30, ("monday"), CONFIG.STATUS_NOT_COMPLETED, 0⟩
      (by decide) (by decide)).1,
    (updateStatus_missed_spawns_reschedule
      ⟨[⟨(0, 1), ("a"), 30, ("monday"), CONFIG.STATUS_NOT_COMPLETED, 0⟩], 150, 2⟩
      5 (0, 1) ⟨(0, 1), ("a"), 30, ("monday"), CONFIG.STATUS_NOT_COMPLETED, 0⟩
      (by decide) (by decide)).2.2.1⟩

/-- C3 counterexample: with dailyLimit 50, a 60-minute Saturday task already
present and a 10-minute Wednesday task marked missed, the rescheduled copy is
created on Saturday (= wednesday + 3) but the subsequent auto-balance moves
it to Sunday, so in the post-call store its day is NOT dayAhead(day, 3). -/
theorem reschedule_day_moved_by_balance :
    (updateStatus ⟨[⟨(0, 1), ("a"), 10, ("wednesday"), CONFIG.STATUS_NOT_COMPLETED, 0⟩,
        ⟨(0, 2), ("b"), 60, ("saturday"), CONFIG.STATUS_NOT_COMPLETED, 0⟩], 50, 3⟩
        9 (0, 1) CONFIG.STATUS_MISSED).2 = none ∧
    Utils.getDayAhead ("wednesday") 3 = ("saturday") ∧
    ((updateStatus ⟨[⟨(0, 1), ("a"), 10, ("wednesday"), CONFIG.STATUS_NOT_COMPLETED, 0⟩,
        ⟨(0, 2), ("b"), 60, ("saturday"), CONFIG.STATUS_NOT_COMPLETED, 0⟩], 50, 3⟩
        9 (0, 1) CONFIG.STATUS_MISSED).1.tasks.get? 2).map Task.title =
      some ("RESCHEDULED: a") ∧
    ((updateStatus ⟨[⟨(0, 1), ("a"), 10, ("wednesday"), CONFIG.STATUS_NOT_COMPLETED, 0⟩,
        ⟨(0, 2), ("b"), 60, ("saturday"), CONFIG.STATUS_NOT_COMPLETED, 0⟩], 50, 3⟩
        9 (0, 1) CONFIG.STATUS_MISSED).1.tasks.get? 2).map Task.day =
      some ("sunday") := by
  refine ⟨by decide, by decide, by decide, by decide⟩

/-! ### Claim C4: the store invariant under public operations -/

theorem validateDuration_ok {raw : Option Int} {num : Int}
    (h : Validator.validateDuration raw = .ok num) :
    1 ≤ num ∧ num ≤ CONFIG.MAX_TASK_DURATION := by
  cases raw with
  | none => exact absurd h (by simp [Validator.validateDuration])
  | some n =>
    simp only [Validator.validateDuration] at h
    by_cases h1 : n ≤ 0
    · rw [if_pos h1] at h
      exact absurd h (by simp)
    · rw [if_neg h1] at h
      by_cases h2 : n > CONFIG.MAX_TASK_DURATION
      · rw [if_pos h2] at h
        exact absurd h (by simp)
      · rw [if_neg h2] at h
        obtain rfl : n = num := by simpa using h
        simp only [CONFIG.MAX_TASK_DURATION] at h2 ⊢
        omega

theorem autoBalanceGo_mem (limit : Int) :
    ∀ (fuel : Nat) (cd : String) (tasks : List Task) (m : Nat) (u : Task),
      u ∈ (autoBalanceGo limit fuel cd tasks m).tasks →
      ∃ v ∈ tasks, u.id = v.id ∧ u.duration = v.duration ∧
        (u.day = v.day ∨ u.day ∈ CONFIG.DAYS) := by
  intro fuel
  induction fuel with
  | zero =>
    intro cd tasks m u hu
    exact ⟨u, hu, rfl, rfl, Or.inl rfl⟩
  | succ n ih =>
    intro cd tasks m u hu
    rw [autoBalanceGo] at hu
    by_cases h1 : calculateDayTime tasks cd ≤ limit
    · rw [if_pos h1] at hu
      exact ⟨u, hu, rfl, rfl, Or.inl rfl⟩
    · rw [if_neg h1] at hu
      cases hsel : selectTaskToMove tasks cd (calculateDayTime tasks cd - limit) with
      | none =>
        rw [hsel] at hu
        exact ⟨u, hu, rfl, rfl, Or.inl rfl⟩
      | some it =>
        obtain ⟨i, t⟩ := it
        rw [hsel] at hu
        dsimp only at hu
        obtain ⟨hget, _, _, _⟩ := selectTaskToMove_mem hsel
        have ht := List.get?_mem hget
        obtain ⟨v', hv', hid, hdur, hdayp⟩ := ih _ _ _ u hu
        rcases List.mem_or_eq_of_mem_set hv' with hv1 | rfl
        · exact ⟨v', hv1, hid, hdur, hdayp⟩
        · refine ⟨t, ht, hid, hdur, Or.inr ?_⟩
          rcases hdayp with h | h
          · rw [h]
            exact getNextDay_mem cd
          · exact h

theorem autoBalance_mem {tasks : List Task} {limit : Int} {day : String} {u : Task}
    (hu : u ∈ (autoBalance tasks limit day).tasks) :
    ∃ v ∈ tasks, u.id = v.id ∧ u.duration = v.duration ∧
      (u.day = v.day ∨ u.day ∈ CONFIG.DAYS) :=
  autoBalanceGo_mem limit CONFIG.MAX_BALANCE_ATTEMPTS (jsToLower day) tasks 0 u hu

theorem autoBalance_map_counter (tasks : List Task) (limit : Int) (day : String) :
    ((autoBalance tasks limit day).tasks.map fun t => t.id.2) =
      tasks.map fun t => t.id.2 := by
  have h := autoBalance_map_skel tasks limit day
  have h2 := congrArg
    (List.map fun q : (Nat × Nat) × String × Int × String => q.1.2) h
  rw [List.map_map, List.map_map] at h2
  exact h2

theorem markFirstById_map_counter (l : List Task) (tid : Nat × Nat) (st : String) :
    ((markFirstById l tid st).map fun t => t.id.2) = l.map fun t => t.id.2 := by
  induction l with
  | nil => rfl
  | cons w ws ih =>
    unfold markFirstById
    by_cases hw : w.id = tid
    · rw [if_pos hw]
      simp
    · rw [if_neg hw]
      simp [ih]

theorem removeFirstById_mem {tid : Nat × Nat} {u : Task} :
    ∀ {l l' : List Task}, removeFirstById l tid = some l' → u ∈ l' → u ∈ l := by
  intro l
  induction l with
  | nil => intro l' h _; simp [removeFirstById] at h
  | cons w ws ih =>
    intro l' h hu
    unfold removeFirstById at h
    by_cases hw : w.id = tid
    · rw [if_pos hw] at h
      obtain rfl : ws = l' := by simpa using h
      exact List.mem_cons_of_mem _ hu
    · rw [if_neg hw] at h
      cases hr : removeFirstById ws tid with
      | none =>
        rw [hr] at h
        simp at h
      | some ws' =>
        rw [hr] at h
        obtain rfl : w :: ws' = l' := by simpa using h
        rcases List.mem_cons.mp hu with rfl | hu2
        · exact List.mem_cons_self _ _
        · exact List.mem_cons_of_mem _ (ih hr hu2)

theorem removeFirstById_map_sublist {tid : Nat × Nat} {f : Task → Nat} :
    ∀ {l l' : List Task}, removeFirstById l tid = some l' →
      (l'.map f).Sublist (l.map f) := by
  intro l
  induction l with
  | nil => intro l' h; simp [removeFirstById] at h
  | cons w ws ih =>
    intro l' h
    unfold removeFirstById at h
    by_cases hw : w.id = tid
    · rw [if_pos hw] at h
      obtain rfl : ws = l' := by simpa using h
      exact (List.Sublist.refl _).cons _
    · rw [if_neg hw] at h
      cases hr : removeFirstById ws tid with
      | none =>
        rw [hr] at h
        simp at h
      | some ws' =>
        rw [hr] at h
        obtain rfl : w :: ws' = l' := by simpa using h
        exact (ih hr).cons₂ _

theorem nodup_append_counter {l : List Nat} {a : Nat} (h : l.Nodup)
    (ha : ∀ x ∈ l, x < a) : (l ++ [a]).Nodup := by
  rw [List.nodup_append]
  refine ⟨h, List.nodup_singleton a, ?_⟩
  intro x hx hy
  have hxa : x = a := by simpa using hy
  have := ha x hx
  omega

/-- The strengthened inductive invariant: the claimed facts plus the bound
relating stored id counters to the generator state. -/
def StoreInv (s : Store) : Prop :=
  (∀ t ∈ s.tasks, t.day ∈ CONFIG.DAYS ∧ 1 ≤ t.duration ∧
    t.duration ≤ CONFIG.MAX_TASK_DURATION ∧ t.id.2 < s.nextId) ∧
  (s.tasks.map fun t => t.id.2).Nodup

theorem addTask_inv {s : Store} (hs : StoreInv s) (now : Nat) (title : String)
    (dur : Option Int) (day st : String) (hday : jsToLower day ∈ CONFIG.DAYS) :
    StoreInv (addTask s now title dur day st).1 := by
  unfold addTask
  cases h1 : Validator.validateTaskTitle title with
  | error e => exact hs
  | ok v =>
    cases h2 : Validator.validateDuration dur with
    | error e => exact hs
    | ok num =>
      have hdur := validateDuration_ok h2
      dsimp only
      constructor
      · intro u hu
        obtain ⟨v', hv', hid, hdur', hdayp⟩ := autoBalance_mem hu
        rcases List.mem_append.mp hv' with hv1 | hv2
        · obtain ⟨hd, hl, hr, hc⟩ := hs.1 v' hv1
          refine ⟨?_, by rw [hdur']; exact hl, by rw [hdur']; exact hr, ?_⟩
          · rcases hdayp with h | h
            · rw [h]; exact hd
            · exact h
          · have h5 : u.id.2 = v'.id.2 := by rw [hid]
            show u.id.2 < s.nextId + 1
            omega
        · obtain rfl : v' = ⟨(now, s.nextId), v, num, jsToLower day, st, now⟩ := by
            simpa using hv2
          refine ⟨?_, by rw [hdur']; exact hdur.1, by rw [hdur']; exact hdur.2, ?_⟩
          · rcases hdayp with h | h
            · rw [h]; exact hday
            · exact h
          · have h5 : u.id.2 = s.nextId := by rw [hid]
            show u.id.2 < s.nextId + 1
            omega
      · rw [autoBalance_map_counter, List.map_append]
        exact nodup_append_counter hs.2 fun x hx => by
          obtain ⟨w, hw, hwx⟩ := List.mem_map.mp hx
          rw [← hwx]
          exact (hs.1 w hw).2.2.2

theorem deleteTask_inv {s : Store} (hs : StoreInv s) (tid : Nat × Nat) :
    StoreInv (deleteTask s tid).1 := by
  unfold deleteTask
  cases hr : removeFirstById s.tasks tid with
  | none => exact hs
  | some ts =>
    constructor
    · intro u hu
      exact hs.1 u (removeFirstById_mem hr hu)
    · exact List.Nodup.sublist (removeFirstById_map_sublist hr) hs.2

theorem updateStatus_inv {s : Store} (hs : StoreInv s) (now : Nat)
    (tid : Nat × Nat) (st : String) : StoreInv (updateStatus s now tid st).1 := by
  unfold updateStatus
  cases hf : s.tasks.find? (fun t => t.id == tid) with
  | none => exact hs
  | some task =>
    have htask : task ∈ s.tasks := List.mem_of_find?_eq_some hf
    dsimp only
    by_cases hg : (task.status == CONFIG.STATUS_COMPLETED &&
        st == CONFIG.STATUS_MISSED) = true
    · rw [if_pos hg]
      exact hs
    · rw [if_neg hg]
      by_cases hm : (st == CONFIG.STATUS_MISSED) = true
      · rw [if_pos hm]
        dsimp only
        constructor
        · intro u hu
          obtain ⟨v', hv', hid, hdur', hdayp⟩ := autoBalance_mem hu
          rcases List.mem_append.mp hv' with hv1 | hv2
          · obtain ⟨w, hw, hwid, _, hwdur, hwday, _⟩ := markFirstById_mem hv1
            obtain ⟨hd, hl, hr2, hc⟩ := hs.1 w hw
            refine ⟨?_, ?_, ?_, ?_⟩
            · rcases hdayp with h | h
              · rw [h, hwday]; exact hd
              · exact h
            · rw [hdur', hwdur]; exact hl
            · rw [hdur', hwdur]; exact hr2
            · have h5 : u.id.2 = w.id.2 := by rw [hid, hwid]
              show u.id.2 < s.nextId + 1
              omega
          · obtain rfl : v' = ⟨(now, s.nextId), ("RESCHEDULED: ") ++ task.title,
                task.duration, Utils.getDayAhead task.day CONFIG.RESCHEDULE_DAYS_AHEAD,
                CONFIG.STATUS_NOT_COMPLETED, now⟩ := by simpa using hv2
            obtain ⟨_, hl, hr2, _⟩ := hs.1 task htask
            refine ⟨?_, by rw [hdur']; exact hl, by rw [hdur']; exact hr2, ?_⟩
            · rcases hdayp with h | h
              · rw [h]; exact getDayAhead_mem _ _
              · exact h
            · have h5 : u.id.2 = s.nextId := by rw [hid]
              show u.id.2 < s.nextId + 1
              omega
        · rw [autoBalance_map_counter, List.map_append, markFirstById_map_counter]
          exact nodup_append_counter hs.2 fun x hx => by
            obtain ⟨w, hw, hwx⟩ := List.mem_map.mp hx
            rw [← hwx]
            exact (hs.1 w hw).2.2.2
      · rw [if_neg hm]
        constructor
        · intro u hu
          obtain ⟨w, hw, hwid, _, hwdur, hwday, _⟩ := markFirstById_mem hu
          obtain ⟨hd, hl, hr2, hc⟩ := hs.1 w hw
          refine ⟨by rw [hwday]; exact hd, by rw [hwdur]; exact hl,
            by rw [hwdur]; exact hr2, ?_⟩
          have h5 : u.id.2 = w.id.2 := by rw [hwid]
          show u.id.2 < s.nextId
          omega
        · rw [markFirstById_map_counter]
          exact hs.2

/-- Reachable stores: any sequence of the public operations starting from the
empty store, each call restricted only by the operation's own checks — except
that `addTask` is additionally required to receive a day token whose
lowercase form is valid (the restriction the counterexample forces, since the
code itself never validates the day argument). -/
inductive Reaches : Store → Prop where
  | init : Reaches initialStore
  | addT (s : Store) (now : Nat) (title : String) (dur : Option Int)
      (day st : String) : Reaches s → jsToLower day ∈ CONFIG.DAYS →
      Reaches (addTask s now title dur day st).1
  | delT (s : Store) (tid : Nat × Nat) : Reaches s → Reaches (deleteTask s tid).1
  | updT (s : Store) (now : Nat) (tid : Nat × Nat) (st : String) : Reaches s →
      Reaches (updateStatus s now tid st).1

theorem reaches_inv {s : Store} (h : Reaches s) : StoreInv s := by
  induction h with
  | init =>
    constructor
    · intro t ht
      simp [initialStore] at ht
    · simp [initialStore]
  | addT s now title dur day st _ hday ih => exact addTask_inv ih now title dur day st hday
  | delT s tid _ ih => exact deleteTask_inv ih tid
  | updT s now tid st _ ih => exact updateStatus_inv ih now tid st

/-- C4 (corrected): starting from the empty store, after any sequence of the
public operations in which every `addTask` call additionally supplies a day
whose lowercase form is one of the 7 valid tokens (a restriction the code
does not enforce — see the counterexample), the store invariant holds: every
stored task's day is a valid token, every duration is in 1..1440, and the
task ids are pairwise distinct. -/
theorem store_invariant_reachable (s : Store) (h : Reaches s) :
    (∀ t ∈ s.tasks, t.day ∈ CONFIG.DAYS ∧ 1 ≤ t.duration ∧
      t.duration ≤ CONFIG.MAX_TASK_DURATION) ∧
    (s.tasks.map Task.id).Nodup := by
  obtain ⟨h1, h2⟩ := reaches_inv h
  refine ⟨fun t ht => ⟨(h1 t ht).1, (h1 t ht).2.1, (h1 t ht).2.2.1⟩, ?_⟩
  refine List.Nodup.of_map Prod.snd ?_
  have hmm : (s.tasks.map Task.id).map Prod.snd = s.tasks.map fun t => t.id.2 := by
    rw [List.map_map]
    rfl
  rw [hmm]
  exact h2

/-- Witness for C4: the invariant after one valid addTask from the empty
store. -/
theorem store_invariant_reachable_witness :
    (∀ t ∈ ((addTask initialStore 0 ("a") (some 30) ("Monday")
        CONFIG.STATUS_NOT_COMPLETED).1).tasks,
      t.day ∈ CONFIG.DAYS ∧ 1 ≤ t.duration ∧
        t.duration ≤ CONFIG.MAX_TASK_DURATION) ∧
    (((addTask initialStore 0 ("a") (some 30) ("Monday")
        CONFIG.STATUS_NOT_COMPLETED).1).tasks.map Task.id).Nodup :=
  store_invariant_reachable _
    (Reaches.addT initialStore 0 ("a") (some 30) ("Monday")
      CONFIG.STATUS_NOT_COMPLETED Reaches.init (by decide))

/-- C4 counterexample: `addTask` never validates the day argument, so a single
call with day `funday` passes all of the operation's own checks and leaves a
stored task whose day is not one of the 7 valid tokens, refuting the claim
over unrestricted argument sequences. -/
theorem addTask_accepts_invalid_day :
    (addTask initialStore 0 ("a") (some 30) ("funday")
      CONFIG.STATUS_NOT_COMPLETED).2 = none ∧
    ((addTask initialStore 0 ("a") (some 30) ("funday")
      CONFIG.STATUS_NOT_COMPLETED).1.tasks.map Task.day) = [("funday")] ∧
    ("funday") ∉ CONFIG.DAYS := by
  refine ⟨by decide, by decide, by decide⟩

end App
